import Mathlib

/-!
Verification of `backblaze_b2_delete_all_old_versions.py`.

The script lists all file versions in a Backblaze B2 bucket (`b2 ls --json
--recursive --versions`), groups them by `fileName` with a `defaultdict`,
sorts each group by `uploadTimestamp` descending (Python's `sorted`, a stable
sort), keeps the newest version of each file and deletes (or, in dry-run
mode, merely reports) every other version, invoking `b2 delete-file-version`
once per candidate, with a confirmation gate in live mode.

The embedding models:
* `VersionRecord` and the pure grouping/sorting/selection logic
  (`groupByFileName`, `sortDesc`, `candidatePairs`, `retained`);
* the JSON values the script manipulates (`Json`), Python truthiness
  (`Json.isFalsy`) and record field extraction (`toRecord`);
* the effectful pipeline as a trace of `Event`s (stdout lines and external
  `b2` invocations) plus an `ExitKind`, parameterised by an `Env` describing
  the outside world: the results of the `b2` commands, the parse outcomes of
  their output (abstracting `json.loads`), and the confirmation line on
  stdin.
-/

/-- One stored version of one logical object, as produced by `b2 ls --json`:
the three fields `fileName`, `fileId`, `uploadTimestamp` read by the script. -/
structure VersionRecord where
  fileName : String
  fileId : String
  uploadTimestamp : Int
deriving DecidableEq, Repr

/-- Comparison used by `sorted(versions, key=lambda x: x['uploadTimestamp'],
reverse=True)` on line 77: `a` may precede `b` iff the timestamp of `b` is at
most that of `a` (descending order). -/
def tsGE (a b : VersionRecord) : Prop := b.uploadTimestamp ≤ a.uploadTimestamp

instance : DecidableRel tsGE := fun a b => Int.decLe b.uploadTimestamp a.uploadTimestamp

instance : IsTotal VersionRecord tsGE :=
  ⟨fun a b => le_total b.uploadTimestamp a.uploadTimestamp⟩

instance : IsTrans VersionRecord tsGE :=
  ⟨fun _ _ _ h1 h2 => le_trans h2 h1⟩

/-- Models line 77, `sorted(versions, key=lambda x: x['uploadTimestamp'],
reverse=True)`: a stable sort by `uploadTimestamp` descending. Python's sort
is stable; insertion sort is extensionally the same function. -/
def sortDesc (l : List VersionRecord) : List VersionRecord :=
  l.insertionSort tsGE

/-- One step of the `defaultdict(list)` build of lines 65–67: append record
`r` to the group keyed by `r.fileName`, creating that group at the end if
absent (Python dicts preserve insertion order). -/
def addToGroups (gs : List (String × List VersionRecord)) (r : VersionRecord) :
    List (String × List VersionRecord) :=
  match gs with
  | [] => [(r.fileName, [r])]
  | (n, vs) :: rest =>
    if n = r.fileName then (n, vs ++ [r]) :: rest
    else (n, vs) :: addToGroups rest r

/-- Models lines 65–67: `files = defaultdict(list)` followed by
`files[file['fileName']].append(file)` over the records in order. -/
def groupByFileName (records : List VersionRecord) : List (String × List VersionRecord) :=
  records.foldl addToGroups []

/-- Distinct `fileName`s of `records` in first-occurrence order: the key
order of the dict built on lines 65–67. -/
def firstNames (records : List VersionRecord) : List String :=
  records.foldl (fun ns r => if r.fileName ∈ ns then ns else ns ++ [r.fileName]) []

/-- Deletion candidates of one group: `sorted_versions[1:]` (line 80). -/
def candidatesOfGroup (vs : List VersionRecord) : List VersionRecord :=
  (sortDesc vs).drop 1

/-- All deletion candidates paired with their dict key (`filename` in the
loop of lines 75–87), flattened in processing order. -/
def candidatePairs (gs : List (String × List VersionRecord)) :
    List (String × VersionRecord) :=
  gs.flatMap fun g => (candidatesOfGroup g.2).map fun v => (g.1, v)

/-- Deletion candidates of a full record list, in processing order. -/
def candidates (records : List VersionRecord) : List (String × VersionRecord) :=
  candidatePairs (groupByFileName records)

/-- Records the loop of lines 75–87 keeps, one per group:
`sorted_versions[0]`, the element spared by the `[1:]` slice. -/
def retained (records : List VersionRecord) : List VersionRecord :=
  (groupByFileName records).filterMap fun g => (sortDesc g.2).head?

/-- Values `json.loads` can produce. Numbers are modelled as integers
(`uploadTimestamp` is an integer in B2 output; no claim involves floats). -/
inductive Json where
  | null
  | bool (b : Bool)
  | num (n : Int)
  | str (s : String)
  | arr (elems : List Json)
  | obj (fields : List (String × Json))

/-- Python truthiness of a parsed JSON value: `not file_versions` (line 59)
holds exactly on these values. -/
def Json.isFalsy : Json → Bool
  | .null => true
  | .bool b => !b
  | .num n => n == 0
  | .str s => s == ""
  | .arr elems => elems.isEmpty
  | .obj fields => fields.isEmpty

/-- Rendering of `type(file_versions)` as interpolated on line 71. -/
def Json.pyType : Json → String
  | .null => "<class \x27NoneType\x27>"
  | .bool _ => "<class \x27bool\x27>"
  | .num _ => "<class \x27int\x27>"
  | .str _ => "<class \x27str\x27>"
  | .arr _ => "<class \x27list\x27>"
  | .obj _ => "<class \x27dict\x27>"

/-- Classifier used to state claims about the `else` branch of lines 70–72:
true on the values that are neither a list nor a dict. -/
def Json.isScalar : Json → Bool
  | .arr _ => false
  | .obj _ => false
  | _ => true

/-- Field access `d[k]` on the field list of a parsed JSON object, as
`Option` (first match; duplicate keys never arise in the claims). -/
def Json.lookupField (fields : List (String × Json)) (k : String) : Option Json :=
  match fields with
  | [] => none
  | (k2, v) :: rest => if k2 = k then some v else Json.lookupField rest k

/-- Extraction of the three fields the script reads from a record
(`file['fileName']`, `file['fileId']`, `file['uploadTimestamp']`); `none`
models the uncaught `KeyError`/`TypeError` an ill-formed record raises. -/
def toRecord : Json → Option VersionRecord
  | .obj fields =>
    match Json.lookupField fields "fileName", Json.lookupField fields "fileId",
          Json.lookupField fields "uploadTimestamp" with
    | some (.str n), some (.str i), some (.num t) => some ⟨n, i, t⟩
    | _, _, _ => none
  | _ => none

/-- Observable effects of a run: stdout lines and external `b2` invocations. -/
inductive Event where
  | print (line : String)
  | lsCall (bucket : String)
  | deleteCall (fileName fileId : String)
deriving DecidableEq, Repr

/-- How a modelled function leaves the process: fall through normally, call
`sys.exit(code)`, or raise an uncaught exception. -/
inductive ExitKind where
  | normal
  | exited (code : Nat)
  | crash
deriving DecidableEq, Repr

/-- Behaviour of the world outside the script.

`lsOutcome bucket` models running `b2 ls --json --recursive --versions
b2://bucket` and parsing its stdout: `.error stderr` for a nonzero exit;
`.ok (lineParsed, wholeParsed)` for a zero exit, where `lineParsed = some js`
iff every nonblank stdout line parses as JSON (line 45, with `js` the parsed
lines) and `wholeParsed` is the outcome of parsing the whole stdout as one
JSON document (line 50). `jsonErr` is the rendering of the `JSONDecodeError`
interpolated on line 47. `deleteOutcome f i` models `b2 delete-file-version
f i`. `stdin` is the confirmation line read on line 111. -/
structure Env where
  lsOutcome : String → Except String (Option (List Json) × Option Json)
  jsonErr : String
  deleteOutcome : String → String → Except String Unit
  stdin : String

/-- Models `run_command` (lines 27–35): on success, returns the payload and
prints nothing; on a nonzero exit, prints the two error lines and exits 1.
`cmdline` is the interpolated `' '.join(command)`. -/
def run_command {A : Type} (cmdline : String) (result : Except String A) :
    List Event × Except Nat A :=
  match result with
  | .ok out => ([], .ok out)
  | .error stderr =>
    ([.print ("Error executing command: " ++ cmdline),
      .print ("Error output: " ++ stderr)], .error 1)

/-- Models `get_file_versions` (lines 38–53): lists the bucket, parses
line-by-line, falls back to whole-output parsing. The returned `Json` is an
`.arr` of the parsed lines on the first path and the whole-output value,
unwrapped, on the fallback path. -/
def get_file_versions (env : Env) (bucket : String) :
    List Event × Except Nat Json :=
  let cmdline := "b2 ls --json --recursive --versions b2://" ++ bucket
  match run_command cmdline (env.lsOutcome bucket) with
  | (evs, .error c) => (Event.lsCall bucket :: evs, .error c)
  | (evs, .ok (lineParsed, wholeParsed)) =>
    match lineParsed with
    | some js => (Event.lsCall bucket :: evs, .ok (.arr js))
    | none =>
      let evs2 := evs ++ [Event.print ("Error decoding JSON: " ++ env.jsonErr),
        Event.print "Attempting to parse output as a single JSON object..."]
      match wholeParsed with
      | some j => (Event.lsCall bucket :: evs2, .ok j)
      | none =>
        (Event.lsCall bucket ::
          (evs2 ++ [Event.print "Failed to parse output as JSON. Please check the B2 CLI version and output format."]),
         .error 1)

/-- Outcome of the type dispatch on lines 64–72. -/
inductive Organized where
  | groups (gs : List (String × List VersionRecord))
  | unexpected (tyName : String)
  | crash
deriving DecidableEq, Repr

/-- Models lines 64–72: a list is grouped by `fileName`; a bare dict becomes
the single-entry mapping of line 69; anything else takes the `else` branch.
`Organized.crash` models the uncaught exception raised by a record missing
one of the three fields. (The script reads `fileName` eagerly and the other
two fields inside the per-group loop; the model reads all three up front —
the difference only matters for ill-formed records, which trigger no other
observable behaviour before the exception.) -/
def organize (fv : Json) : Organized :=
  match fv with
  | .arr elems =>
    match elems.mapM toRecord with
    | some rs => .groups (groupByFileName rs)
    | none => .crash
  | .obj fields =>
    match toRecord (.obj fields) with
    | some r => .groups [(r.fileName, [r])]
    | none => .crash
  | other => .unexpected other.pyType

/-- Models the body of the candidate loop (lines 80–87) for one candidate:
`filename` is the dict key, `v` the version record. Returns the emitted
events and either a continuation or the exit code of a failed
`b2 delete-file-version` call. -/
def deleteOne (env : Env) (dryRun : Bool) (filename : String) (v : VersionRecord) :
    List Event × Except Nat Unit :=
  if dryRun then
    ([.print ("Would delete: " ++ filename ++ " (Version: " ++ v.fileId ++ ")")], .ok ())
  else
    let cmdline := "b2 delete-file-version " ++ filename ++ " " ++ v.fileId
    match run_command cmdline (env.deleteOutcome filename v.fileId) with
    | (evs, res) =>
      (Event.print ("Deleting: " ++ filename ++ " (Version: " ++ v.fileId ++ ")") ::
        Event.deleteCall filename v.fileId :: evs,
       res)

/-- Sequential processing of a flattened candidate list, threading
`deleted_count` (line 87); a failed delete aborts everything, since the
`sys.exit(1)` inside `run_command` escapes both nested loops. -/
def deleteLoop (env : Env) (dryRun : Bool) :
    List (String × VersionRecord) → Nat → List Event × Except Nat Nat
  | [], count => ([], .ok count)
  | p :: rest, count =>
    match deleteOne env dryRun p.1 p.2 with
    | (evs, .ok _) =>
      match deleteLoop env dryRun rest (count + 1) with
      | (evs2, res) => (evs ++ evs2, res)
    | (evs, .error c) => (evs, .error c)

/-- Models the nested loops of lines 75–87: for each dict entry in order,
sort the group by timestamp descending and process `sorted_versions[1:]`. -/
def deleteGroups (env : Env) (dryRun : Bool) :
    List (String × List VersionRecord) → Nat → List Event × Except Nat Nat
  | [], count => ([], .ok count)
  | g :: rest, count =>
    match deleteLoop env dryRun ((candidatesOfGroup g.2).map fun v => (g.1, v)) count with
    | (evs, .ok c2) =>
      match deleteGroups env dryRun rest c2 with
      | (evs2, res) => (evs ++ evs2, res)
    | (evs, .error c) => (evs, .error c)

/-- Models the summary print of lines 90–93. -/
def summaryLine (dryRun : Bool) (count : Nat) : String :=
  if dryRun then "\nTotal versions that would be deleted: " ++ toString count
  else "\nTotal versions deleted: " ++ toString count

/-- Models `delete_old_versions` (lines 56–93). -/
def delete_old_versions (env : Env) (bucket : String) (dryRun : Bool) :
    List Event × ExitKind :=
  match get_file_versions env bucket with
  | (evs, .error c) => (evs, .exited c)
  | (evs, .ok fv) =>
    if fv.isFalsy then
      (evs ++ [.print ("No files found in bucket: " ++ bucket)], .normal)
    else
      match organize fv with
      | .unexpected ty =>
        (evs ++ [.print ("Unexpected data type for file_versions: " ++ ty)], .normal)
      | .crash => (evs, .crash)
      | .groups gs =>
        match deleteGroups env dryRun gs 0 with
        | (evs2, .error c) => (evs ++ evs2, .exited c)
        | (evs2, .ok count) =>
          (evs ++ evs2 ++ [.print (summaryLine dryRun count)], .normal)

/-- Models the `.lower()` applied to the confirmation line on line 111:
lowercase every character. (Extensionally `String.toLower`, written via the
character list so that it reduces inside the kernel.) -/
def pyLower (s : String) : String :=
  String.mk (s.data.map Char.toLower)

/-- Termination of the script process: falling off the end of the file is a
zero exit. -/
def processExit : ExitKind → ExitKind
  | .normal => .exited 0
  | e => e

/-- Models the entry point (lines 96–117): argument-count check, dry-run
detection (`"--dry-run" in sys.argv`), confirmation gate in live mode, then
`delete_old_versions`. `argv` includes the program name at index 0. -/
def mainRun (env : Env) (argv : List String) : List Event × ExitKind :=
  if argv.length < 2 || argv.length > 3 then
    ([.print "Usage: python3 delete.py <bucket_name> [--dry-run]"], .exited 1)
  else
    let bucket := argv.getD 1 ""
    let dryRun := argv.contains "--dry-run"
    if dryRun then
      match delete_old_versions env bucket dryRun with
      | (evs, ek) =>
        (Event.print "Running in dry run mode. No files will be actually deleted." :: evs,
         processExit ek)
    else
      if pyLower env.stdin = "y" then
        match delete_old_versions env bucket dryRun with
        | (evs, ek) =>
          (Event.print "WARNING: This will actually delete file versions. Are you sure? (y/n)" :: evs,
           processExit ek)
      else
        ([.print "WARNING: This will actually delete file versions. Are you sure? (y/n)",
          .print "Operation cancelled."], .exited 0)

/-- Sample record: version `id1` of file `f`, uploaded at time 100. -/
def r100 : VersionRecord := ⟨"f", "id1", 100⟩

/-- Sample record: version `id2` of file `f`, uploaded at time 300. -/
def r300 : VersionRecord := ⟨"f", "id2", 300⟩

/-- Sample record: version `id3` of file `f`, uploaded at time 200. -/
def r200 : VersionRecord := ⟨"f", "id3", 200⟩

/-- Scenario A input: one file with three versions, timestamps 100, 300, 200
in that input order. -/
def recsA : List VersionRecord := [r100, r300, r200]

/-- JSON rendering of a version record as `b2 ls --json` emits it. -/
def recJson (n i : String) (t : Int) : Json :=
  Json.obj [("fileName", Json.str n), ("fileId", Json.str i), ("uploadTimestamp", Json.num t)]

/-- World for scenario A: the listing parses line-by-line into the three
versions of `recsA`; every delete would succeed. -/
def envA : Env :=
  { lsOutcome := fun _ =>
      .ok (some [recJson "f" "id1" 100, recJson "f" "id2" 300, recJson "f" "id3" 200], none),
    jsonErr := "", deleteOutcome := fun _ _ => .ok (), stdin := "y" }

/-- World where every external call succeeds and the listing is empty. -/
def envLive : Env :=
  { lsOutcome := fun _ => .ok (some [], none),
    jsonErr := "", deleteOutcome := fun _ _ => .ok (), stdin := "y" }

/-- World for the failing-delete scenario: one file `f` with six versions,
hence five deletion candidates (`id4`, `id5`, `id2`, `id3`, `id1` in
processing order), and `b2 delete-file-version` fails (exit nonzero, stderr
`boom`) exactly on version `id2` — the third of the five candidates. -/
def envFail : Env :=
  { lsOutcome := fun _ =>
      .ok (some [recJson "f" "id1" 100, recJson "f" "id2" 300, recJson "f" "id3" 200,
                 recJson "f" "id4" 500, recJson "f" "id5" 400, recJson "f" "id6" 600], none),
    jsonErr := "",
    deleteOutcome := fun _ i => if i = "id2" then .error "boom" else .ok (),
    stdin := "y" }

/-- Bare JSON object used for the single-record fallback scenario. -/
def objX : Json := recJson "f" "id1" 100

/-- World where line-by-line parsing fails and the whole output parses as
the single bare object `objX`. -/
def envObj : Env :=
  { lsOutcome := fun _ => .ok (none, some objX),
    jsonErr := "Expecting value: line 2 column 1 (char 2)",
    deleteOutcome := fun _ _ => .ok (), stdin := "y" }

/-- World where the user answers `n` at the confirmation prompt. -/
def envNo : Env :=
  { lsOutcome := fun _ => .ok (some [], none),
    jsonErr := "", deleteOutcome := fun _ _ => .ok (), stdin := "n" }

/-- World where line-by-line parsing fails and the whole output parses as
the bare number 0 — a falsy scalar. -/
def envZero : Env :=
  { lsOutcome := fun _ => .ok (none, some (Json.num 0)),
    jsonErr := "Expecting value: line 1 column 1 (char 0)",
    deleteOutcome := fun _ _ => .ok (), stdin := "y" }

/-- World where line-by-line parsing fails and the whole output parses as
the bare number 5 — a truthy scalar. -/
def envFive : Env :=
  { lsOutcome := fun _ => .ok (none, some (Json.num 5)),
    jsonErr := "Expecting value: line 1 column 1 (char 0)",
    deleteOutcome := fun _ _ => .ok (), stdin := "y" }

/-- Characterisation of the dict build, used in proofs: groups in
first-occurrence key order, each holding the input subsequence of records
with that name. -/
def groupsOf (l : List VersionRecord) : List (String × List VersionRecord) :=
  (firstNames l).map fun n => (n, l.filter fun r => r.fileName = n)

/-- Classifier for external delete invocations in a trace. -/
def isDeleteEvent : Event → Bool
  | .deleteCall _ _ => true
  | _ => false

/-! Helper lemmas about the stable descending sort. -/

lemma sortDesc_perm (l : List VersionRecord) : List.Perm (sortDesc l) l :=
  List.perm_insertionSort tsGE l

lemma sortDesc_length (l : List VersionRecord) : (sortDesc l).length = l.length :=
  List.length_insertionSort tsGE l

lemma sortDesc_sorted (l : List VersionRecord) : List.Sorted tsGE (sortDesc l) :=
  List.sorted_insertionSort tsGE l

lemma orderedInsert_filter_ts_eq (x : VersionRecord) (l : List VersionRecord) :
    (List.orderedInsert tsGE x l).filter (fun r => r.uploadTimestamp = x.uploadTimestamp)
      = x :: l.filter (fun r => r.uploadTimestamp = x.uploadTimestamp) := by
  induction l with
  | nil => simp [List.orderedInsert]
  | cons b l ih =>
    rw [List.orderedInsert]
    by_cases h : tsGE x b
    · rw [if_pos h]
      simp [List.filter_cons]
    · rw [if_neg h]
      have hb : ¬ (b.uploadTimestamp = x.uploadTimestamp) := fun he => h (le_of_eq he)
      simp [List.filter_cons, hb, ih]

lemma orderedInsert_filter_ts_ne (x : VersionRecord) (t : Int)
    (hx : x.uploadTimestamp ≠ t) (l : List VersionRecord) :
    (List.orderedInsert tsGE x l).filter (fun r => r.uploadTimestamp = t)
      = l.filter (fun r => r.uploadTimestamp = t) := by
  induction l with
  | nil => simp [List.orderedInsert, hx]
  | cons b l ih =>
    rw [List.orderedInsert]
    by_cases h : tsGE x b
    · rw [if_pos h]
      simp [List.filter_cons, hx]
    · rw [if_neg h]
      simp [List.filter_cons, ih]

lemma sortDesc_filter_ts (l : List VersionRecord) (t : Int) :
    (sortDesc l).filter (fun r => r.uploadTimestamp = t)
      = l.filter (fun r => r.uploadTimestamp = t) := by
  induction l with
  | nil => rfl
  | cons x l ih =>
    show (List.orderedInsert tsGE x (List.insertionSort tsGE l)).filter _ = _
    by_cases h : x.uploadTimestamp = t
    · subst h
      rw [orderedInsert_filter_ts_eq]
      have ih2 : (List.insertionSort tsGE l).filter
          (fun r => r.uploadTimestamp = x.uploadTimestamp)
          = l.filter (fun r => r.uploadTimestamp = x.uploadTimestamp) := ih
      simp [List.filter_cons, ih2]
    · rw [orderedInsert_filter_ts_ne x t h]
      have ih2 : (List.insertionSort tsGE l).filter (fun r => r.uploadTimestamp = t)
          = l.filter (fun r => r.uploadTimestamp = t) := ih
      simp [List.filter_cons, h, ih2]

/-! Helper lemmas characterising the grouping of records by file name. -/

lemma firstNames_append (l : List VersionRecord) (r : VersionRecord) :
    firstNames (l ++ [r])
      = if r.fileName ∈ firstNames l then firstNames l
        else firstNames l ++ [r.fileName] := by
  simp [firstNames, List.foldl_append]

lemma mem_firstNames (l : List VersionRecord) (n : String) :
    n ∈ firstNames l ↔ n ∈ l.map VersionRecord.fileName := by
  induction l using List.reverseRecOn with
  | nil => simp [firstNames]
  | append_singleton l r ih =>
    rw [firstNames_append]
    by_cases h : r.fileName ∈ firstNames l
    · simp only [if_pos h, List.map_append, List.mem_append, List.map_cons, List.map_nil,
        List.mem_singleton]
      constructor
      · intro hn
        exact Or.inl (ih.mp hn)
      · rintro (hn | hn)
        · exact ih.mpr hn
        · subst hn; exact h
    · simp [if_neg h, ih]

lemma nodup_firstNames (l : List VersionRecord) : (firstNames l).Nodup := by
  induction l using List.reverseRecOn with
  | nil => simp [firstNames]
  | append_singleton l r ih =>
    rw [firstNames_append]
    by_cases h : r.fileName ∈ firstNames l
    · simpa [if_pos h] using ih
    · rw [if_neg h]
      simp [List.nodup_append, ih, h]

lemma filter_name_eq_nil (l : List VersionRecord) (a : String)
    (h : a ∉ firstNames l) : (l.filter fun r => r.fileName = a) = [] := by
  rw [List.filter_eq_nil_iff]
  intro r hr
  simp only [decide_eq_true_eq]
  intro he
  exact h ((mem_firstNames l a).mpr (he ▸ List.mem_map_of_mem VersionRecord.fileName hr))

lemma addToGroups_of_not_mem (fns : List String) (F : String → List VersionRecord)
    (r : VersionRecord) :
    r.fileName ∉ fns →
    addToGroups (fns.map fun n => (n, F n)) r
      = (fns.map fun n => (n, F n)) ++ [(r.fileName, [r])] := by
  induction fns with
  | nil => intro _; rfl
  | cons n ns ih =>
    intro h
    have hne : n ≠ r.fileName := fun he => h (he ▸ List.mem_cons_self n ns)
    have h2 : r.fileName ∉ ns := fun hm => h (List.mem_cons_of_mem n hm)
    simp only [List.map_cons, addToGroups, if_neg hne, List.cons_append]
    rw [ih h2]

lemma addToGroups_of_mem (fns : List String) (F : String → List VersionRecord)
    (r : VersionRecord) :
    fns.Nodup → r.fileName ∈ fns →
    addToGroups (fns.map fun n => (n, F n)) r
      = fns.map fun n => (n, F n ++ if n = r.fileName then [r] else []) := by
  induction fns with
  | nil => intro _ h; cases h
  | cons n ns ih =>
    intro hnd h
    have hnd2 := List.nodup_cons.mp hnd
    by_cases he : n = r.fileName
    · simp only [List.map_cons, addToGroups, if_pos he]
      congr 1
      symm
      apply List.map_congr_left
      intro m hm
      have hmne : m ≠ r.fileName := fun he2 => hnd2.1 (by rw [he, ← he2]; exact hm)
      rw [if_neg hmne, List.append_nil]
    · have h3 : r.fileName ∈ ns := by
        rcases List.mem_cons.mp h with h4 | h4
        · exact absurd h4.symm he
        · exact h4
      simp only [List.map_cons, addToGroups, if_neg he]
      rw [List.append_nil, ih hnd2.2 h3]

lemma addToGroups_groupsOf (l : List VersionRecord) (r : VersionRecord) :
    addToGroups (groupsOf l) r = groupsOf (l ++ [r]) := by
  unfold groupsOf
  by_cases h : r.fileName ∈ firstNames l
  · rw [addToGroups_of_mem _ _ _ (nodup_firstNames l) h, firstNames_append, if_pos h]
    apply List.map_congr_left
    intro n hn
    rw [List.filter_append]
    congr 1
    by_cases he : n = r.fileName
    · simp [List.filter_cons, he]
    · have : ¬ (r.fileName = n) := fun h2 => he h2.symm
      simp [List.filter_cons, he, this]
  · rw [addToGroups_of_not_mem _ _ _ h, firstNames_append, if_neg h, List.map_append]
    congr 1
    · apply List.map_congr_left
      intro n hn
      have hne : ¬ (r.fileName = n) := fun he => h (he ▸ hn)
      rw [List.filter_append]
      simp [List.filter_cons, hne]
    · simp only [List.map_cons, List.map_nil]
      rw [List.filter_append, filter_name_eq_nil l _ h]
      simp [List.filter_cons]

lemma groupByFileName_eq (l : List VersionRecord) : groupByFileName l = groupsOf l := by
  induction l using List.reverseRecOn with
  | nil => rfl
  | append_singleton l r ih =>
    unfold groupByFileName at *
    rw [List.foldl_append, List.foldl_cons, List.foldl_nil, ih]
    exact addToGroups_groupsOf l r

/-! Helper lemmas for counting candidates and characterising retained records. -/

lemma sum_map_ite_one (fns : List String) (a : String) :
    fns.Nodup → a ∈ fns →
    (fns.map fun n => if a = n then (1 : Nat) else 0).sum = 1 := by
  induction fns with
  | nil => intro _ h; cases h
  | cons n ns ih =>
    intro hnd h
    have hnd2 := List.nodup_cons.mp hnd
    rcases List.mem_cons.mp h with h1 | h1
    · rw [List.map_cons, List.sum_cons, if_pos h1]
      have hz : (ns.map fun m => if a = m then (1 : Nat) else 0).sum = 0 := by
        apply List.sum_eq_zero
        intro x hx
        rcases List.mem_map.mp hx with ⟨m, hm, he⟩
        rw [← he, if_neg]
        intro h2
        exact hnd2.1 (h1 ▸ h2 ▸ hm)
      rw [hz]
    · have hne : a ≠ n := by
        intro h2
        exact hnd2.1 (h2 ▸ h1)
      rw [List.map_cons, List.sum_cons, if_neg hne, ih hnd2.2 h1, Nat.zero_add]

lemma sum_filter_lengths (fns : List String) (l : List VersionRecord) :
    fns.Nodup → (∀ r ∈ l, r.fileName ∈ fns) →
    (fns.map fun n => (l.filter fun r => r.fileName = n).length).sum = l.length := by
  induction l with
  | nil =>
    intro _ _
    apply List.sum_eq_zero
    intro x hx
    rcases List.mem_map.mp hx with ⟨m, _, he⟩
    simp [← he]
  | cons r l ih =>
    intro hnd hcov
    have hmap : (fns.map fun n => ((r :: l).filter fun r2 => r2.fileName = n).length)
        = fns.map fun n =>
            (if r.fileName = n then (1 : Nat) else 0)
              + (l.filter fun r2 => r2.fileName = n).length := by
      apply List.map_congr_left
      intro n _
      by_cases hh : r.fileName = n
      · simp [List.filter_cons, hh, Nat.add_comm]
      · simp [List.filter_cons, hh]
    rw [hmap, List.sum_map_add,
      sum_map_ite_one fns r.fileName hnd (hcov r (List.mem_cons_self r l)),
      ih hnd (fun s hs => hcov s (List.mem_cons_of_mem r hs)), List.length_cons]
    omega

lemma length_candidatePairs (gs : List (String × List VersionRecord)) :
    (candidatePairs gs).length = (gs.map fun g => g.2.length - 1).sum := by
  unfold candidatePairs
  rw [List.length_flatMap]
  congr 1
  apply List.map_congr_left
  intro g _
  simp [candidatesOfGroup, sortDesc_length]

lemma sum_sub_one_add_length (gs : List (String × List VersionRecord)) :
    (∀ g ∈ gs, g.2 ≠ []) →
    (gs.map fun g => g.2.length - 1).sum + gs.length = (gs.map fun g => g.2.length).sum := by
  induction gs with
  | nil => intro _; rfl
  | cons g gs ih =>
    intro h
    have h1 : g.2.length ≠ 0 := by
      intro h0
      exact h g (List.mem_cons_self g gs) (List.length_eq_zero.mp h0)
    have h2 := ih fun g2 hg2 => h g2 (List.mem_cons_of_mem g hg2)
    simp only [List.map_cons, List.sum_cons, List.length_cons]
    omega

lemma groupsOf_snd_ne_nil (l : List VersionRecord) :
    ∀ g ∈ groupsOf l, g.2 ≠ [] := by
  intro g hg
  unfold groupsOf at hg
  rcases List.mem_map.mp hg with ⟨n, hn, he⟩
  rcases List.mem_map.mp ((mem_firstNames l n).mp hn) with ⟨r, hr, hrn⟩
  have hg2 : g.2 = l.filter fun r2 => r2.fileName = n := by rw [← he]
  rw [hg2]
  intro hnil
  have hmem : r ∈ l.filter fun r2 => r2.fileName = n := by
    rw [List.mem_filter]
    exact ⟨hr, by simp [hrn]⟩
  rw [hnil] at hmem
  cases hmem

lemma sum_groupsOf_lengths (l : List VersionRecord) :
    ((groupsOf l).map fun g => g.2.length).sum = l.length := by
  unfold groupsOf
  rw [List.map_map]
  exact sum_filter_lengths (firstNames l) l (nodup_firstNames l)
    fun r hr => (mem_firstNames l r.fileName).mpr
      (List.mem_map_of_mem VersionRecord.fileName hr)

lemma groupsOf_length (l : List VersionRecord) :
    (groupsOf l).length = (firstNames l).length := by
  simp [groupsOf]

lemma firstNames_length_eq_dedup (l : List VersionRecord) :
    (firstNames l).length = ((l.map VersionRecord.fileName).dedup).length := by
  have h1 : (firstNames l).toFinset = (l.map VersionRecord.fileName).toFinset := by
    ext a
    simp only [List.mem_toFinset]
    exact mem_firstNames l a
  have h2 := List.card_toFinset (firstNames l)
  have h3 := List.card_toFinset (l.map VersionRecord.fileName)
  rw [List.dedup_eq_self.mpr (nodup_firstNames l)] at h2
  rw [h1, h3] at h2
  exact h2.symm

lemma candidates_length_add (l : List VersionRecord) :
    (candidates l).length + ((l.map VersionRecord.fileName).dedup).length = l.length := by
  unfold candidates
  rw [groupByFileName_eq, length_candidatePairs, ← firstNames_length_eq_dedup,
    ← groupsOf_length, sum_sub_one_add_length (groupsOf l) (groupsOf_snd_ne_nil l),
    sum_groupsOf_lengths]

lemma sortDesc_head_spec (vs : List VersionRecord) :
    vs ≠ [] →
    ∃ h t, sortDesc vs = h :: t ∧ h ∈ vs ∧
      (∀ x ∈ vs, x.uploadTimestamp ≤ h.uploadTimestamp) ∧
      (vs.filter fun x => x.uploadTimestamp = h.uploadTimestamp).head? = some h := by
  intro hne
  cases hs : sortDesc vs with
  | nil =>
    exfalso
    have := sortDesc_length vs
    rw [hs] at this
    exact hne (List.length_eq_zero.mp this.symm)
  | cons h t =>
    refine ⟨h, t, rfl, ?_, ?_, ?_⟩
    · have hmem : h ∈ sortDesc vs := by
        rw [hs]
        exact List.mem_cons_self h t
      exact (sortDesc_perm vs).mem_iff.mp hmem
    · intro x hx
      have hx2 : x ∈ sortDesc vs := (sortDesc_perm vs).mem_iff.mpr hx
      rw [hs] at hx2
      rcases List.mem_cons.mp hx2 with he | hxt
      · rw [he]
      · have hsorted := sortDesc_sorted vs
        rw [hs] at hsorted
        exact List.rel_of_sorted_cons hsorted x hxt
    · have hstab := sortDesc_filter_ts vs h.uploadTimestamp
      rw [hs, List.filter_cons] at hstab
      simp only [decide_True, if_true] at hstab
      rw [← hstab]
      rfl

lemma retained_as_filterMap (l : List VersionRecord) :
    retained l = (firstNames l).filterMap
      fun n => (sortDesc (l.filter fun r => r.fileName = n)).head? := by
  unfold retained
  rw [groupByFileName_eq]
  unfold groupsOf
  rw [List.filterMap_map]
  rfl

lemma filter_name_ne_nil (l : List VersionRecord) (n : String) (hn : n ∈ firstNames l) :
    (l.filter fun r => r.fileName = n) ≠ [] := by
  rcases List.mem_map.mp ((mem_firstNames l n).mp hn) with ⟨r, hr, hrn⟩
  intro hnil
  have hmem : r ∈ l.filter fun r2 => r2.fileName = n := by
    rw [List.mem_filter]
    exact ⟨hr, by simp [hrn]⟩
  rw [hnil] at hmem
  cases hmem

lemma retained_map_fileName (l : List VersionRecord) :
    (retained l).map VersionRecord.fileName = firstNames l := by
  rw [retained_as_filterMap]
  have key : ∀ fns : List String, (∀ n ∈ fns, (l.filter fun r => r.fileName = n) ≠ []) →
      ((fns.filterMap fun n => (sortDesc (l.filter fun r => r.fileName = n)).head?).map
        VersionRecord.fileName) = fns := by
    intro fns
    induction fns with
    | nil => intro _; rfl
    | cons n ns ih =>
      intro hcov
      obtain ⟨h, t, hs, hmem, _, _⟩ :=
        sortDesc_head_spec (l.filter fun r => r.fileName = n)
          (hcov n (List.mem_cons_self n ns))
      rw [List.filterMap_cons, hs]
      simp only [List.head?_cons, List.map_cons]
      have hn : h.fileName = n := by
        have := (List.mem_filter.mp hmem).2
        simpa using this
      rw [hn, ih fun m hm => hcov m (List.mem_cons_of_mem n hm)]
  exact key (firstNames l) fun n hn => filter_name_ne_nil l n hn

lemma retained_mem_spec (l : List VersionRecord) :
    ∀ r ∈ retained l,
      r ∈ l
      ∧ (∀ s ∈ l, s.fileName = r.fileName → s.uploadTimestamp ≤ r.uploadTimestamp)
      ∧ ((l.filter fun s => s.fileName = r.fileName).filter
           fun s => s.uploadTimestamp = r.uploadTimestamp).head? = some r := by
  intro r hr
  rw [retained_as_filterMap] at hr
  rcases List.mem_filterMap.mp hr with ⟨n, hn, hkept⟩
  obtain ⟨h, t, hs, hmem, hmax, hfirst⟩ :=
    sortDesc_head_spec (l.filter fun r2 => r2.fileName = n) (filter_name_ne_nil l n hn)
  rw [hs] at hkept
  simp only [List.head?_cons, Option.some_inj] at hkept
  have hr2 : r = h := hkept.symm
  subst hr2
  have hname : r.fileName = n := by
    have := (List.mem_filter.mp hmem).2
    simpa using this
  refine ⟨(List.mem_filter.mp hmem).1, ?_, ?_⟩
  · intro s hs2 hsn
    exact hmax s (List.mem_filter.mpr ⟨hs2, by simp [hsn, hname]⟩)
  · rw [hname]
    exact hfirst

/-! Helper lemmas about the deletion loop. -/

lemma deleteLoop_dry (env : Env) (cs : List (String × VersionRecord)) (c : Nat) :
    deleteLoop env true cs c
      = (cs.map fun p =>
          Event.print ("Would delete: " ++ p.1 ++ " (Version: " ++ p.2.fileId ++ ")"),
         .ok (c + cs.length)) := by
  induction cs generalizing c with
  | nil => simp [deleteLoop]
  | cons p cs ih =>
    have harith : c + 1 + cs.length = c + (cs.length + 1) := by omega
    simp [deleteLoop, deleteOne, ih, harith]

lemma deleteLoop_live_ok (env : Env) (cs : List (String × VersionRecord)) :
    ∀ c : Nat, (∀ p ∈ cs, env.deleteOutcome p.1 p.2.fileId = .ok ()) →
    deleteLoop env false cs c
      = (cs.flatMap fun p =>
          [Event.print ("Deleting: " ++ p.1 ++ " (Version: " ++ p.2.fileId ++ ")"),
           Event.deleteCall p.1 p.2.fileId],
         .ok (c + cs.length)) := by
  induction cs with
  | nil =>
    intro c _
    simp [deleteLoop]
  | cons p cs ih =>
    intro c h
    have hp := h p (List.mem_cons_self p cs)
    have harith : c + 1 + cs.length = c + (cs.length + 1) := by omega
    simp [deleteLoop, deleteOne, run_command, hp,
      ih (c + 1) (fun q hq => h q (List.mem_cons_of_mem p hq)), harith]

lemma deleteLoop_live_fail (env : Env) (y : String × VersionRecord)
    (ys : List (String × VersionRecord)) (err : String) :
    ∀ (xs : List (String × VersionRecord)) (c : Nat),
    (∀ p ∈ xs, env.deleteOutcome p.1 p.2.fileId = .ok ()) →
    env.deleteOutcome y.1 y.2.fileId = .error err →
    deleteLoop env false (xs ++ y :: ys) c
      = ((xs.flatMap fun p =>
            [Event.print ("Deleting: " ++ p.1 ++ " (Version: " ++ p.2.fileId ++ ")"),
             Event.deleteCall p.1 p.2.fileId])
          ++ [Event.print ("Deleting: " ++ y.1 ++ " (Version: " ++ y.2.fileId ++ ")"),
              Event.deleteCall y.1 y.2.fileId,
              Event.print ("Error executing command: "
                ++ ("b2 delete-file-version " ++ y.1 ++ " " ++ y.2.fileId)),
              Event.print ("Error output: " ++ err)],
         .error 1) := by
  intro xs
  induction xs with
  | nil =>
    intro c _ hfail
    simp [deleteLoop, deleteOne, run_command, hfail]
  | cons p xs ih =>
    intro c hok hfail
    have hp := hok p (List.mem_cons_self p xs)
    simp [deleteLoop, deleteOne, run_command, hp,
      ih (c + 1) (fun q hq => hok q (List.mem_cons_of_mem p hq)) hfail]

lemma candidatePairs_cons (g : String × List VersionRecord)
    (gs : List (String × List VersionRecord)) :
    candidatePairs (g :: gs)
      = ((candidatesOfGroup g.2).map fun v => (g.1, v)) ++ candidatePairs gs := by
  simp [candidatePairs]

lemma deleteLoop_append (env : Env) (d : Bool) (ys : List (String × VersionRecord)) :
    ∀ (xs : List (String × VersionRecord)) (c : Nat),
    deleteLoop env d (xs ++ ys) c
      = (match deleteLoop env d xs c with
         | (evs, .ok c2) =>
           (evs ++ (deleteLoop env d ys c2).1, (deleteLoop env d ys c2).2)
         | (evs, .error e) => (evs, .error e)) := by
  intro xs
  induction xs with
  | nil =>
    intro c
    simp [deleteLoop]
  | cons p xs ih =>
    intro c
    simp only [List.cons_append, deleteLoop]
    cases hdo : deleteOne env d p.1 p.2 with
    | mk evs1 res =>
      cases res with
      | ok u =>
        simp only [List.append_eq]
        rw [ih (c + 1)]
        cases hdl : deleteLoop env d xs (c + 1) with
        | mk evs2 res2 =>
          cases res2 with
          | ok c2 => simp [List.append_assoc]
          | error e => rfl
      | error e => rfl

lemma deleteGroups_eq_deleteLoop (env : Env) (d : Bool) :
    ∀ (gs : List (String × List VersionRecord)) (c : Nat),
    deleteGroups env d gs c = deleteLoop env d (candidatePairs gs) c := by
  intro gs
  induction gs with
  | nil => intro c; rfl
  | cons g gs ih =>
    intro c
    rw [candidatePairs_cons, deleteLoop_append]
    simp only [deleteGroups]
    cases hdl : deleteLoop env d ((candidatesOfGroup g.2).map fun v => (g.1, v)) c with
    | mk evs res =>
      cases res with
      | ok c2 => simp [ih c2]
      | error e => rfl

lemma countP_isDeleteEvent_flatMap (xs : List (String × VersionRecord)) :
    (xs.flatMap fun p =>
      [Event.print ("Deleting: " ++ p.1 ++ " (Version: " ++ p.2.fileId ++ ")"),
       Event.deleteCall p.1 p.2.fileId]).countP isDeleteEvent = xs.length := by
  induction xs with
  | nil => rfl
  | cons p xs ih =>
    simp [List.flatMap_cons, List.countP_append, List.countP_cons, isDeleteEvent, ih]

/-! Helper lemmas evaluating the pipeline under assumptions on the world. -/

lemma get_file_versions_lines (env : Env) (bucket : String) (js : List Json)
    (w : Option Json) (h : env.lsOutcome bucket = .ok (some js, w)) :
    get_file_versions env bucket = ([Event.lsCall bucket], .ok (Json.arr js)) := by
  simp [get_file_versions, run_command, h]

lemma get_file_versions_fallback (env : Env) (bucket : String) (j : Json)
    (h : env.lsOutcome bucket = .ok (none, some j)) :
    get_file_versions env bucket
      = ([Event.lsCall bucket,
          Event.print ("Error decoding JSON: " ++ env.jsonErr),
          Event.print "Attempting to parse output as a single JSON object..."],
         .ok j) := by
  simp [get_file_versions, run_command, h]

lemma organize_scalar (j : Json) (h : j.isScalar = true) :
    organize j = .unexpected j.pyType := by
  cases j <;> first | rfl | cases h

lemma delete_old_versions_empty (env : Env) (bucket : String) (dryRun : Bool)
    (w : Option Json) (h : env.lsOutcome bucket = .ok (some [], w)) :
    delete_old_versions env bucket dryRun
      = ([Event.lsCall bucket, Event.print ("No files found in bucket: " ++ bucket)],
         .normal) := by
  unfold delete_old_versions
  rw [get_file_versions_lines env bucket [] w h]
  simp [Json.isFalsy]

lemma delete_old_versions_scalar (env : Env) (bucket : String) (dryRun : Bool)
    (j : Json) (h1 : env.lsOutcome bucket = .ok (none, some j))
    (h2 : j.isScalar = true) (h3 : j.isFalsy = false) :
    delete_old_versions env bucket dryRun
      = ([Event.lsCall bucket,
          Event.print ("Error decoding JSON: " ++ env.jsonErr),
          Event.print "Attempting to parse output as a single JSON object...",
          Event.print ("Unexpected data type for file_versions: " ++ j.pyType)],
         .normal) := by
  unfold delete_old_versions
  rw [get_file_versions_fallback env bucket j h1]
  simp [h3, organize_scalar j h2]

lemma delete_old_versions_live_fail (env : Env) (bucket : String)
    (js : List Json) (w : Option Json) (rs : List VersionRecord)
    (xs ys : List (String × VersionRecord)) (y : String × VersionRecord) (err : String)
    (h1 : env.lsOutcome bucket = .ok (some js, w))
    (h2 : js.mapM toRecord = some rs)
    (h3 : js ≠ [])
    (h4 : candidates rs = xs ++ y :: ys)
    (hok : ∀ p ∈ xs, env.deleteOutcome p.1 p.2.fileId = .ok ())
    (hfail : env.deleteOutcome y.1 y.2.fileId = .error err) :
    delete_old_versions env bucket false
      = (Event.lsCall bucket ::
          ((xs.flatMap fun p =>
             [Event.print ("Deleting: " ++ p.1 ++ " (Version: " ++ p.2.fileId ++ ")"),
              Event.deleteCall p.1 p.2.fileId])
            ++ [Event.print ("Deleting: " ++ y.1 ++ " (Version: " ++ y.2.fileId ++ ")"),
                Event.deleteCall y.1 y.2.fileId,
                Event.print ("Error executing command: "
                  ++ ("b2 delete-file-version " ++ y.1 ++ " " ++ y.2.fileId)),
                Event.print ("Error output: " ++ err)]),
         .exited 1) := by
  have hfalsy : (Json.arr js).isFalsy = false := by
    simp [Json.isFalsy, h3]
  have horg : organize (Json.arr js) = .groups (groupByFileName rs) := by
    have hstep : organize (Json.arr js)
        = match js.mapM toRecord with
          | some rs2 => Organized.groups (groupByFileName rs2)
          | none => Organized.crash := rfl
    rw [hstep, h2]
  have h4b : candidatePairs (groupByFileName rs) = xs ++ y :: ys := h4
  unfold delete_old_versions
  simp [get_file_versions_lines env bucket js w h1, hfalsy, horg,
    deleteGroups_eq_deleteLoop, h4b, deleteLoop_live_fail env y ys err xs 0 hok hfail]

lemma mem_two_ne {p b a : String} (hp : p ≠ a) (hb : b ≠ a) : a ∉ [p, b] := by
  intro hmem
  rcases List.mem_cons.mp hmem with h | h
  · exact hp h.symm
  · rcases List.mem_cons.mp h with h2 | h2
    · exact hb h2.symm
    · cases h2

lemma mainRun_live (env : Env) (p bucket : String)
    (hp : p ≠ "--dry-run") (hb : bucket ≠ "--dry-run") (hy : pyLower env.stdin = "y") :
    mainRun env [p, bucket]
      = (Event.print "WARNING: This will actually delete file versions. Are you sure? (y/n)"
          :: (delete_old_versions env bucket false).1,
         processExit (delete_old_versions env bucket false).2) := by
  unfold mainRun
  simp [hy, Ne.symm hp, Ne.symm hb]

lemma mainRun_cancel (env : Env) (p bucket : String)
    (hp : p ≠ "--dry-run") (hb : bucket ≠ "--dry-run") (hn : pyLower env.stdin ≠ "y") :
    mainRun env [p, bucket]
      = ([Event.print "WARNING: This will actually delete file versions. Are you sure? (y/n)",
          Event.print "Operation cancelled."], .exited 0) := by
  unfold mainRun
  simp [hn, Ne.symm hp, Ne.symm hb]

lemma mainRun_dry_flag (env : Env) (p bucket : String) :
    mainRun env [p, bucket, "--dry-run"]
      = (Event.print "Running in dry run mode. No files will be actually deleted."
          :: (delete_old_versions env bucket true).1,
         processExit (delete_old_versions env bucket true).2) := by
  have hc : ([p, bucket, "--dry-run"].contains "--dry-run") = true := by
    simp
  unfold mainRun
  simp [hc]

lemma mainRun_dry_single (env : Env) (p : String) :
    mainRun env [p, "--dry-run"]
      = (Event.print "Running in dry run mode. No files will be actually deleted."
          :: (delete_old_versions env "--dry-run" true).1,
         processExit (delete_old_versions env "--dry-run" true).2) := by
  have hc : ([p, "--dry-run"].contains "--dry-run") = true := by
    simp
  unfold mainRun
  simp [hc]

lemma mainRun_three_live (env : Env) (p b x : String)
    (hp : p ≠ "--dry-run") (hb : b ≠ "--dry-run") (hx : x ≠ "--dry-run")
    (hy : pyLower env.stdin = "y") :
    mainRun env [p, b, x]
      = (Event.print "WARNING: This will actually delete file versions. Are you sure? (y/n)"
          :: (delete_old_versions env b false).1,
         processExit (delete_old_versions env b false).2) := by
  unfold mainRun
  simp [hy, Ne.symm hp, Ne.symm hb, Ne.symm hx]

lemma countP_isDeleteEvent_map_print (cs : List (String × VersionRecord))
    (f : String × VersionRecord → String) :
    ((cs.map fun p => Event.print (f p)).countP isDeleteEvent) = 0 := by
  induction cs with
  | nil => rfl
  | cons p cs ih => simp [List.countP_cons, isDeleteEvent, ih]

/-! Claim theorems. -/

/-- C1: grouping the input records by exact `fileName` equality and selecting
all but the newest per group yields exactly
`|all records| - |distinct fileNames|` deletion candidates, and exactly one
record per distinct `fileName` is retained — a record of the input with the
greatest `uploadTimestamp` among its name group, the first in input order on
ties. (Groups arising from the grouping are automatically non-empty.) -/
theorem keep_newest_selection_correct (records : List VersionRecord) :
    (candidates records).length
        = records.length - ((records.map VersionRecord.fileName).dedup).length
    ∧ ((retained records).map VersionRecord.fileName).Nodup
    ∧ (∀ n, n ∈ (retained records).map VersionRecord.fileName
          ↔ n ∈ records.map VersionRecord.fileName)
    ∧ ∀ r ∈ retained records,
        r ∈ records
        ∧ (∀ s ∈ records, s.fileName = r.fileName →
            s.uploadTimestamp ≤ r.uploadTimestamp)
        ∧ ((records.filter fun s => s.fileName = r.fileName).filter
            fun s => s.uploadTimestamp = r.uploadTimestamp).head? = some r := by
  refine ⟨?_, ?_, ?_, retained_mem_spec records⟩
  · have h := candidates_length_add records
    omega
  · rw [retained_map_fileName]
    exact nodup_firstNames records
  · intro n
    rw [retained_map_fileName]
    exact mem_firstNames records n

/-- C2: for one `fileName` with three versions at timestamps 100, 300 and
200, the version with timestamp 300 is retained, the versions with
timestamps 200 and 100 are the deletion candidates, and the reported total
count is 2. -/
theorem scenario_a_three_versions :
    retained recsA = [r300]
    ∧ candidates recsA = [("f", r200), ("f", r100)]
    ∧ delete_old_versions envA "mybucket" true
        = ([Event.lsCall "mybucket",
            Event.print "Would delete: f (Version: id3)",
            Event.print "Would delete: f (Version: id1)",
            Event.print "\nTotal versions that would be deleted: 2"],
           .normal) := by
  refine ⟨by decide, by decide, by decide⟩

/-- C3: for every candidate set and every run, the dry-run loop performs no
external delete invocation — its trace is exactly one would-delete line per
candidate and the count still increments per candidate — while the live loop
(every delete call succeeding; a failing call is the error-handling claim)
invokes the delete operation exactly once per candidate, in order. -/
theorem dry_run_never_deletes_live_deletes_once (env : Env)
    (cs : List (String × VersionRecord)) (c : Nat) :
    deleteLoop env true cs c
      = (cs.map fun p =>
          Event.print ("Would delete: " ++ p.1 ++ " (Version: " ++ p.2.fileId ++ ")"),
         .ok (c + cs.length))
    ∧ ((deleteLoop env true cs c).1.countP isDeleteEvent) = 0
    ∧ ((∀ p ∈ cs, env.deleteOutcome p.1 p.2.fileId = .ok ()) →
        deleteLoop env false cs c
          = (cs.flatMap fun p =>
              [Event.print ("Deleting: " ++ p.1 ++ " (Version: " ++ p.2.fileId ++ ")"),
               Event.deleteCall p.1 p.2.fileId],
             .ok (c + cs.length))
          ∧ ((deleteLoop env false cs c).1.countP isDeleteEvent) = cs.length) := by
  refine ⟨deleteLoop_dry env cs c, ?_, fun h => ⟨deleteLoop_live_ok env cs c h, ?_⟩⟩
  · rw [deleteLoop_dry env cs c]
    exact countP_isDeleteEvent_map_print cs _
  · rw [deleteLoop_live_ok env cs c h]
    exact countP_isDeleteEvent_flatMap cs

/-- Witness for C3 at a concrete input: one candidate, a world whose delete
calls all succeed; the live loop issues exactly one delete call. -/
theorem dry_run_never_deletes_live_deletes_once_witness :
    deleteLoop envLive false [("f", r100)] 0
      = ([Event.print "Deleting: f (Version: id1)", Event.deleteCall "f" "id1"], .ok 1)
    ∧ ((deleteLoop envLive false [("f", r100)] 0).1.countP isDeleteEvent) = 1 := by
  have h := (dry_run_never_deletes_live_deletes_once envLive [("f", r100)] 0).2.2
    (by
      intro p hp
      rcases List.mem_singleton.mp hp with rfl
      rfl)
  exact ⟨h.1, h.2⟩

/-- C4: in live mode, when the external delete call for one candidate exits
nonzero — all earlier candidates having succeeded — the run prints the
diagnostic including the captured error output and the process exits with
code 1; the trace ends at that point, so no delete call is issued for any
candidate after the failing one, and the number of delete invocations is
exactly the failing candidate's position. -/
theorem failing_delete_stops_run (env : Env) (bucket : String)
    (js : List Json) (w : Option Json) (rs : List VersionRecord)
    (xs ys : List (String × VersionRecord)) (y : String × VersionRecord) (err : String)
    (h1 : env.lsOutcome bucket = .ok (some js, w))
    (h2 : js.mapM toRecord = some rs)
    (h3 : js ≠ [])
    (h4 : candidates rs = xs ++ y :: ys)
    (hok : ∀ p ∈ xs, env.deleteOutcome p.1 p.2.fileId = .ok ())
    (hfail : env.deleteOutcome y.1 y.2.fileId = .error err) :
    delete_old_versions env bucket false
      = (Event.lsCall bucket ::
          ((xs.flatMap fun p =>
             [Event.print ("Deleting: " ++ p.1 ++ " (Version: " ++ p.2.fileId ++ ")"),
              Event.deleteCall p.1 p.2.fileId])
            ++ [Event.print ("Deleting: " ++ y.1 ++ " (Version: " ++ y.2.fileId ++ ")"),
                Event.deleteCall y.1 y.2.fileId,
                Event.print ("Error executing command: "
                  ++ ("b2 delete-file-version " ++ y.1 ++ " " ++ y.2.fileId)),
                Event.print ("Error output: " ++ err)]),
         .exited 1)
    ∧ ((delete_old_versions env bucket false).1.countP isDeleteEvent) = xs.length + 1 := by
  have h := delete_old_versions_live_fail env bucket js w rs xs ys y err h1 h2 h3 h4 hok hfail
  refine ⟨h, ?_⟩
  rw [h]
  simp [List.countP_cons, List.countP_append, countP_isDeleteEvent_flatMap, isDeleteEvent]

/-- Witness for C4 at a concrete input: five candidates for file `f`, the
third (`id2`) fails; the process exits 1 and exactly three delete calls were
issued — none for the fourth (`id3`) or fifth (`id1`) candidate. -/
theorem failing_delete_stops_run_witness :
    (delete_old_versions envFail "b" false).2 = .exited 1
    ∧ ((delete_old_versions envFail "b" false).1.countP isDeleteEvent) = 3
    ∧ Event.deleteCall "f" "id3" ∉ (delete_old_versions envFail "b" false).1
    ∧ Event.deleteCall "f" "id1" ∉ (delete_old_versions envFail "b" false).1 := by
  have h := failing_delete_stops_run envFail "b"
    [recJson "f" "id1" 100, recJson "f" "id2" 300, recJson "f" "id3" 200,
     recJson "f" "id4" 500, recJson "f" "id5" 400, recJson "f" "id6" 600] none
    [⟨"f", "id1", 100⟩, ⟨"f", "id2", 300⟩, ⟨"f", "id3", 200⟩,
     ⟨"f", "id4", 500⟩, ⟨"f", "id5", 400⟩, ⟨"f", "id6", 600⟩]
    [("f", ⟨"f", "id4", 500⟩), ("f", ⟨"f", "id5", 400⟩)]
    [("f", ⟨"f", "id3", 200⟩), ("f", ⟨"f", "id1", 100⟩)]
    ("f", ⟨"f", "id2", 300⟩) "boom"
    rfl rfl (by simp) (by decide)
    (by
      intro p hp
      fin_cases hp <;> rfl)
    rfl
  refine ⟨?_, ?_, ?_, ?_⟩
  · rw [h.1]
  · rw [h.1]
    decide
  · rw [h.1]
    decide
  · rw [h.1]
    decide

lemma obj_ne_arr (fs : List (String × Json)) (es : List Json) :
    Json.obj fs ≠ Json.arr es := fun h => Json.noConfusion h

lemma delete_old_versions_fallback_falsy (env : Env) (bucket : String) (dryRun : Bool)
    (j : Json) (h1 : env.lsOutcome bucket = .ok (none, some j)) (h3 : j.isFalsy = true) :
    delete_old_versions env bucket dryRun
      = ([Event.lsCall bucket,
          Event.print ("Error decoding JSON: " ++ env.jsonErr),
          Event.print "Attempting to parse output as a single JSON object...",
          Event.print ("No files found in bucket: " ++ bucket)], .normal) := by
  unfold delete_old_versions
  rw [get_file_versions_fallback env bucket j h1]
  simp [h3]

/-- C5 counterexample: with line-by-line parsing failing and the whole output
parsing as the single bare object `objX`, `get_file_versions` returns the
bare object itself, not a single-element collection wrapping it — the Lister
does not perform the wrapping before returning. -/
theorem lister_returns_bare_object_unwrapped :
    (get_file_versions envObj "b").2 = .ok objX
    ∧ (get_file_versions envObj "b").2 ≠ .ok (Json.arr [objX]) := by
  constructor
  · rfl
  · intro hcontra
    have h1 : (get_file_versions envObj "b").2 = Except.ok objX := rfl
    rw [h1] at hcontra
    exact obj_ne_arr _ _ (Except.ok.inj hcontra)

/-- C5 corrected: `get_file_versions` returns the fallback-parsed bare object
unwrapped; the wrapping into a single-element collection happens in its
caller `delete_old_versions` (lines 68–69), whose dispatch turns the bare
record into the one-entry mapping from its file name to the one-record
group, so the pipeline still processes exactly that single record. -/
theorem lister_bare_object_wrapped_by_caller (env : Env) (bucket : String)
    (fs : List (String × Json)) (r : VersionRecord)
    (h1 : env.lsOutcome bucket = .ok (none, some (Json.obj fs)))
    (h2 : toRecord (Json.obj fs) = some r) :
    (get_file_versions env bucket).2 = .ok (Json.obj fs)
    ∧ organize (Json.obj fs) = .groups [(r.fileName, [r])] := by
  constructor
  · rw [get_file_versions_fallback env bucket _ h1]
  · have hstep : organize (Json.obj fs)
        = match toRecord (Json.obj fs) with
          | some r2 => Organized.groups [(r2.fileName, [r2])]
          | none => Organized.crash := rfl
    rw [hstep, h2]

/-- Witness for the corrected C5 at a concrete input: the bare record comes
back unwrapped from the Lister and becomes a one-entry group in the caller. -/
theorem lister_bare_object_wrapped_by_caller_witness :
    (get_file_versions envObj "b").2
        = .ok (Json.obj [("fileName", Json.str "f"), ("fileId", Json.str "id1"),
            ("uploadTimestamp", Json.num 100)])
    ∧ organize (Json.obj [("fileName", Json.str "f"), ("fileId", Json.str "id1"),
        ("uploadTimestamp", Json.num 100)])
        = .groups [("f", [⟨"f", "id1", 100⟩])] :=
  lister_bare_object_wrapped_by_caller envObj "b"
    [("fileName", Json.str "f"), ("fileId", Json.str "id1"),
     ("uploadTimestamp", Json.num 100)]
    ⟨"f", "id1", 100⟩ rfl rfl

/-- C6: the per-group sort by `uploadTimestamp` descending is stable — for
every record list and every timestamp value, the subsequence of records
carrying that timestamp is unchanged by the sort, so any two records with
equal `uploadTimestamp` keep their input relative order. -/
theorem sort_descending_stable (group : List VersionRecord) (t : Int) :
    (sortDesc group).filter (fun r => r.uploadTimestamp = t)
      = group.filter (fun r => r.uploadTimestamp = t) :=
  sortDesc_filter_ts group t

/-- C7: in live mode, any confirmation line whose lowercasing is not `y`
makes the program print the cancellation message and exit with code 0, with
no listing call and no delete call in its trace; a `y` answer (after
lowercasing) lets the run proceed to `delete_old_versions`. -/
theorem confirmation_gate (env : Env) (bucket : String)
    (hb : bucket ≠ "--dry-run") :
    (pyLower env.stdin ≠ "y" →
      mainRun env ["prog", bucket]
        = ([Event.print "WARNING: This will actually delete file versions. Are you sure? (y/n)",
            Event.print "Operation cancelled."], .exited 0))
    ∧ (pyLower env.stdin = "y" →
      mainRun env ["prog", bucket]
        = (Event.print "WARNING: This will actually delete file versions. Are you sure? (y/n)"
            :: (delete_old_versions env bucket false).1,
           processExit (delete_old_versions env bucket false).2)) := by
  constructor
  · intro hn
    exact mainRun_cancel env "prog" bucket (by decide) hb hn
  · intro hy
    exact mainRun_live env "prog" bucket (by decide) hb hy

/-- Witness for C7 at a concrete input: the user answers `n`; the run is
cancelled with exit code 0 and no external call in the trace. -/
theorem confirmation_gate_witness :
    mainRun envNo ["prog", "mybucket"]
      = ([Event.print "WARNING: This will actually delete file versions. Are you sure? (y/n)",
          Event.print "Operation cancelled."], .exited 0) :=
  (confirmation_gate envNo "mybucket" (by decide)).1 (by decide)

/-- C8: when the listing yields an empty record set, the program reports
that no files were found, performs no deletion, prints no per-candidate line
and no summary, and exits 0 — in dry-run mode as well as in confirmed live
mode. -/
theorem empty_listing_no_files (env : Env) (bucket : String) (w : Option Json)
    (h1 : env.lsOutcome bucket = .ok (some [], w))
    (hb : bucket ≠ "--dry-run") (hy : pyLower env.stdin = "y") :
    mainRun env ["prog", bucket, "--dry-run"]
      = ([Event.print "Running in dry run mode. No files will be actually deleted.",
          Event.lsCall bucket,
          Event.print ("No files found in bucket: " ++ bucket)], .exited 0)
    ∧ mainRun env ["prog", bucket]
      = ([Event.print "WARNING: This will actually delete file versions. Are you sure? (y/n)",
          Event.lsCall bucket,
          Event.print ("No files found in bucket: " ++ bucket)], .exited 0) := by
  constructor
  · rw [mainRun_dry_flag env "prog" bucket,
      delete_old_versions_empty env bucket true w h1]
    rfl
  · rw [mainRun_live env "prog" bucket (by decide) hb hy,
      delete_old_versions_empty env bucket false w h1]
    rfl

/-- Witness for C8 at a concrete input: an empty bucket listing in live mode
yields the no-files report and exit code 0. -/
theorem empty_listing_no_files_witness :
    mainRun envLive ["prog", "mybucket"]
      = ([Event.print "WARNING: This will actually delete file versions. Are you sure? (y/n)",
          Event.lsCall "mybucket",
          Event.print "No files found in bucket: mybucket"], .exited 0) := by
  have h := empty_listing_no_files envLive "mybucket" none rfl (by decide) (by decide)
  exact h.2

/-- C9: argument validation checks only the argument count — zero or more
than two arguments after the program name exit 1 with the usage line; the
dry-run flag is recognized anywhere in argv, so the sole argument
`--dry-run` is accepted and treated simultaneously as the bucket name and as
enabling dry-run; a second argument other than `--dry-run` is silently
ignored (the trace does not depend on it) and the run proceeds in live mode
against the first argument. -/
theorem argument_count_only_validation (env : Env) (b x : String)
    (hb : b ≠ "--dry-run") (hx : x ≠ "--dry-run") (hy : pyLower env.stdin = "y") :
    mainRun env ["prog"]
      = ([Event.print "Usage: python3 delete.py <bucket_name> [--dry-run]"], .exited 1)
    ∧ mainRun env ["prog", b, x, x]
      = ([Event.print "Usage: python3 delete.py <bucket_name> [--dry-run]"], .exited 1)
    ∧ mainRun env ["prog", "--dry-run"]
      = (Event.print "Running in dry run mode. No files will be actually deleted."
          :: (delete_old_versions env "--dry-run" true).1,
         processExit (delete_old_versions env "--dry-run" true).2)
    ∧ mainRun env ["prog", b, x]
      = (Event.print "WARNING: This will actually delete file versions. Are you sure? (y/n)"
          :: (delete_old_versions env b false).1,
         processExit (delete_old_versions env b false).2) := by
  refine ⟨rfl, rfl, ?_, ?_⟩
  · exact mainRun_dry_single env "prog"
  · exact mainRun_three_live env "prog" b x (by decide) hb hx hy

/-- Witness for C9 at a concrete input: `--dry-run` alone runs a dry-run
listing of the bucket named `--dry-run`; a junk second argument leaves the
trace of a live run against the first argument. -/
theorem argument_count_only_validation_witness :
    mainRun envLive ["prog", "--dry-run"]
      = ([Event.print "Running in dry run mode. No files will be actually deleted.",
          Event.lsCall "--dry-run",
          Event.print "No files found in bucket: --dry-run"], .exited 0)
    ∧ mainRun envLive ["prog", "bkt", "junk"]
      = ([Event.print "WARNING: This will actually delete file versions. Are you sure? (y/n)",
          Event.lsCall "bkt",
          Event.print "No files found in bucket: bkt"], .exited 0) := by
  have h := argument_count_only_validation envLive "bkt" "junk"
    (by decide) (by decide) (by decide)
  constructor
  · rw [h.2.2.1, delete_old_versions_empty envLive "--dry-run" true none rfl]
    rfl
  · rw [h.2.2.2, delete_old_versions_empty envLive "bkt" false none rfl]
    rfl

/-- C10 counterexample: with line-by-line parsing failing and the whole
output parsing as the bare number 0 — a value that is neither a collection
nor an object — the program does not print the unexpected-data-type
diagnostic: the falsy value takes the emptiness check of line 59 first and
the run reports that no files were found (still exit 0, no deletion, no
summary). -/
theorem fallback_falsy_scalar_counterexample :
    mainRun envZero ["prog", "b"]
      = ([Event.print "WARNING: This will actually delete file versions. Are you sure? (y/n)",
          Event.lsCall "b",
          Event.print "Error decoding JSON: Expecting value: line 1 column 1 (char 0)",
          Event.print "Attempting to parse output as a single JSON object...",
          Event.print "No files found in bucket: b"], .exited 0)
    ∧ Event.print ("Unexpected data type for file_versions: " ++ (Json.num 0).pyType)
        ∉ (mainRun envZero ["prog", "b"]).1 := by
  constructor
  · decide
  · decide

/-- C10 corrected: if the listing output fails line-by-line parsing and the
fallback parse yields a truthy value that is neither a collection nor an
object (for example a nonzero number), the program prints the
unexpected-data-type diagnostic and returns normally with exit code 0, with
no deletion and no summary in the trace; a falsy such value (0, the empty
string, false or null) instead takes the emptiness branch and prints the
no-files message, likewise exiting 0 with no deletion and no summary. -/
theorem fallback_truthy_scalar_unexpected (env : Env) (bucket : String) (j : Json)
    (h1 : env.lsOutcome bucket = .ok (none, some j))
    (h2 : j.isScalar = true)
    (hb : bucket ≠ "--dry-run") (hy : pyLower env.stdin = "y") :
    (j.isFalsy = false →
      mainRun env ["prog", bucket]
        = ([Event.print "WARNING: This will actually delete file versions. Are you sure? (y/n)",
            Event.lsCall bucket,
            Event.print ("Error decoding JSON: " ++ env.jsonErr),
            Event.print "Attempting to parse output as a single JSON object...",
            Event.print ("Unexpected data type for file_versions: " ++ j.pyType)],
           .exited 0))
    ∧ (j.isFalsy = true →
      mainRun env ["prog", bucket]
        = ([Event.print "WARNING: This will actually delete file versions. Are you sure? (y/n)",
            Event.lsCall bucket,
            Event.print ("Error decoding JSON: " ++ env.jsonErr),
            Event.print "Attempting to parse output as a single JSON object...",
            Event.print ("No files found in bucket: " ++ bucket)],
           .exited 0)) := by
  constructor
  · intro h3
    rw [mainRun_live env "prog" bucket (by decide) hb hy,
      delete_old_versions_scalar env bucket false j h1 h2 h3]
    rfl
  · intro h3
    rw [mainRun_live env "prog" bucket (by decide) hb hy,
      delete_old_versions_fallback_falsy env bucket false j h1 h3]
    rfl

/-- Witness for the corrected C10 at a concrete input: the truthy bare
number 5 produces the unexpected-data-type diagnostic and exit code 0. -/
theorem fallback_truthy_scalar_unexpected_witness :
    mainRun envFive ["prog", "b"]
      = ([Event.print "WARNING: This will actually delete file versions. Are you sure? (y/n)",
          Event.lsCall "b",
          Event.print "Error decoding JSON: Expecting value: line 1 column 1 (char 0)",
          Event.print "Attempting to parse output as a single JSON object...",
          Event.print "Unexpected data type for file_versions: <class \x27int\x27>"],
         .exited 0) := by
  have h := (fallback_truthy_scalar_unexpected envFive "b" (Json.num 5)
    rfl rfl (by decide) (by decide)).1 rfl
  exact h
